import Mathlib

/-!
Shallow embedding of the `robby_x` control-service core
(`src/api/control_service/{rate_limiter,config,command_queue,app}.py`).

Python floats are modelled as rationals (`ℚ`): every numeric value the
claims exercise (speeds in [-1,1], rates, bursts, 0.5-second steps) is
exactly representable, and the source performs only +, -, *, /, min, max
and comparisons on them.  Python ints are modelled as `ℤ`.  The monotonic
clock is an explicit `ℚ` argument threaded through the calls that read it.
Fallible Python code (raising `ValueError` / `CommandQueueFullError`)
is modelled with `Except String`.
-/

/-! ### Token bucket (rate_limiter.py) -/

/-- `TokenBucketState` dataclass: limiter parameters. -/
structure TokenBucketState where
  rate_per_second : ℚ
  capacity : ℤ
deriving DecidableEq, Repr

/-- `TokenBucket`: parameters plus the mutable token count and the
timestamp of the last refill (`_tokens`, `_updated_at`). -/
structure TokenBucket where
  state : TokenBucketState
  tokens : ℚ
  updated_at : ℚ
deriving DecidableEq, Repr

/-- `TokenBucket.__init__`: starts full (`_tokens = float(capacity)`),
with `_updated_at = time.monotonic()` (the explicit `now`). -/
def TokenBucket.init (rate_per_second : ℚ) (capacity : ℤ) (now : ℚ) : TokenBucket :=
  { state := { rate_per_second := rate_per_second, capacity := capacity }
    tokens := (capacity : ℚ)
    updated_at := now }

/-- `TokenBucket.configure`: validates both parameters strictly positive,
then replaces the parameter record; the current token count and timestamp
are left untouched (no retroactive clamping). -/
def TokenBucket.configure (b : TokenBucket) (rate_per_second : ℚ) (capacity : ℤ) :
    Except String TokenBucket :=
  if rate_per_second ≤ 0 then .error "rate_per_second must be positive"
  else if capacity ≤ 0 then .error "capacity must be positive"
  else .ok { b with state := { rate_per_second := rate_per_second, capacity := capacity } }

/-- `TokenBucket._refill` at monotonic time `now`: lazy refill clamped to
capacity; a non-positive elapsed time leaves the bucket untouched. -/
def TokenBucket.refill (b : TokenBucket) (now : ℚ) : TokenBucket :=
  let elapsed := max 0 (now - b.updated_at)
  if elapsed ≤ 0 then b
  else { b with
          tokens := min ((b.state.capacity : ℚ)) (b.tokens + elapsed * b.state.rate_per_second)
          updated_at := now }

/-- `TokenBucket.allow` at monotonic time `now`: refill, then consume one
token if at least one is available.  Returns the decision and the bucket
after the call (the Python method mutates in place under `_lock`). -/
def TokenBucket.allow (b : TokenBucket) (now : ℚ) : Bool × TokenBucket :=
  let b := b.refill now
  if 1 ≤ b.tokens then (true, { b with tokens := b.tokens - 1 })
  else (false, b)

/-- A sequence of `allow()` calls at the given monotonic timestamps,
threading the bucket state; returns the list of decisions and the final
bucket.  (`wait_for_token()` performs the identical refill-and-consume
step once a token is available, so a successful wait consumes exactly
like a successful `allow`.) -/
def TokenBucket.allowRun (b : TokenBucket) : List ℚ → List Bool × TokenBucket
  | [] => ([], b)
  | t :: ts =>
    let p := b.allow t
    let q := p.2.allowRun ts
    (p.1 :: q.1, q.2)

/-! ### Configuration (config.py) -/

/-- `RateLimitSettings` dataclass fields. -/
structure RateLimitSettings where
  rate_per_second : ℚ
  burst : ℤ
deriving DecidableEq, Repr

/-- `RateLimitSettings(...)`: the dataclass constructor runs
`__post_init__`, which rejects non-positive rate or burst. -/
def RateLimitSettings.make (rate_per_second : ℚ) (burst : ℤ) :
    Except String RateLimitSettings :=
  if rate_per_second ≤ 0 then .error "rate_per_second must be positive"
  else if burst ≤ 0 then .error "burst must be a positive integer"
  else .ok { rate_per_second := rate_per_second, burst := burst }

/-- `ControlServiceConfig` dataclass fields (allowed networks kept as the
raw CIDR strings, as in the source). -/
structure ControlServiceConfig where
  api_keys : List String
  allowed_networks : List String
  ingress_rate_limit : RateLimitSettings
  execution_rate_limit : RateLimitSettings
  queue_maxsize : ℤ
deriving DecidableEq, Repr

/-- `ControlServiceConfig(...)`: constructor plus `__post_init__`, which
rejects a non-positive queue size and an empty key set. -/
def ControlServiceConfig.make (api_keys : List String) (allowed_networks : List String)
    (ingress_rate_limit execution_rate_limit : RateLimitSettings) (queue_maxsize : ℤ) :
    Except String ControlServiceConfig :=
  if queue_maxsize ≤ 0 then .error "queue_maxsize must be positive"
  else if api_keys = [] then .error "At least one API key must be configured"
  else .ok { api_keys := api_keys, allowed_networks := allowed_networks
             ingress_rate_limit := ingress_rate_limit
             execution_rate_limit := execution_rate_limit
             queue_maxsize := queue_maxsize }

/-- The data of `ControlServiceConfig.snapshot()`: a serialisable copy of
the configuration (the dict the `GET /config` and `PATCH /config`
handlers put in the response body). -/
structure ConfigSnapshot where
  ingress_rate_per_second : ℚ
  ingress_burst : ℤ
  execution_rate_per_second : ℚ
  execution_burst : ℤ
  queue_maxsize : ℤ
  allowed_networks : List String
deriving DecidableEq, Repr

/-- `ControlServiceConfig.snapshot`. -/
def ControlServiceConfig.snapshot (c : ControlServiceConfig) : ConfigSnapshot :=
  { ingress_rate_per_second := c.ingress_rate_limit.rate_per_second
    ingress_burst := c.ingress_rate_limit.burst
    execution_rate_per_second := c.execution_rate_limit.rate_per_second
    execution_burst := c.execution_rate_limit.burst
    queue_maxsize := c.queue_maxsize
    allowed_networks := c.allowed_networks }

/-! ### Command queue (command_queue.py) -/

/-- `DriveCommand` dataclass. -/
structure DriveCommand where
  left_speed : ℚ
  right_speed : ℚ
  duration_s : Option ℚ := none
deriving DecidableEq, Repr

/-- `CommandQueue` object state.  `queue` is the FIFO contents of the
inner `asyncio.Queue` of `(item_type, command)` pairs; `unfinished` is
that queue's unfinished-task counter (incremented by `put_nowait`,
decremented by `task_done`; `join()` — i.e. `wait_until_idle()` —
returns exactly when it is 0).  `workerTask` models `_worker_task`:
`none` = no task, `some true` = worker coroutine still looping,
`some false` = worker coroutine has exited but the task object is still
referenced.  `shutdown` is the `_shutdown` event flag. -/
structure CommandQueue where
  maxsize : ℤ
  queue : List (String × DriveCommand)
  unfinished : ℕ
  shutdown : Bool
  workerTask : Option Bool
deriving DecidableEq, Repr

/-- `CommandQueue.__init__`: stores `maxsize` without any validation;
empty queue, cleared shutdown event, no worker task. -/
def CommandQueue.init (maxsize : ℤ) : CommandQueue :=
  { maxsize := maxsize, queue := [], unfinished := 0
    shutdown := false, workerTask := none }

/-- `CommandQueue.enqueue_drive`: fast-rejects when `self._maxsize` is
truthy (non-zero) and the current depth is at least it, raising
`CommandQueueFullError`; otherwise appends `("drive", command)` and
returns the resulting depth. -/
def CommandQueue.enqueue_drive (q : CommandQueue) (command : DriveCommand) :
    Except String (ℤ × CommandQueue) :=
  if q.maxsize ≠ 0 ∧ q.maxsize ≤ (q.queue.length : ℤ) then
    .error "Drive command queue is full"
  else
    let q' := { q with queue := q.queue ++ [("drive", command)]
                       unfinished := q.unfinished + 1 }
    .ok ((q'.queue.length : ℤ), q')

/-- `CommandQueue.clear`: pops every queued entry with `get_nowait` and
marks it done, without executing anything. -/
def CommandQueue.clear (q : CommandQueue) : CommandQueue :=
  { q with queue := [], unfinished := q.unfinished - q.queue.length }

/-- `CommandQueue.set_maxsize`: rejects non-positive sizes, otherwise
replaces `_maxsize` for subsequent `enqueue_drive` calls. -/
def CommandQueue.set_maxsize (q : CommandQueue) (maxsize : ℤ) :
    Except String CommandQueue :=
  if maxsize ≤ 0 then .error "maxsize must be positive"
  else .ok { q with maxsize := maxsize }

/-- `CommandQueue.start`: spawns the worker only if `_worker_task is None`. -/
def CommandQueue.start (q : CommandQueue) : CommandQueue :=
  match q.workerTask with
  | none => { q with workerTask := some true }
  | some _ => q

/-- Predicate for `wait_until_idle()` (`queue.join()`) being able to
return: every item ever put has been marked done. -/
def CommandQueue.idle (q : CommandQueue) : Prop := q.unfinished = 0

/-! ### Worker / actuator trace machine

The worker coroutine (`CommandQueue._worker`) and its callers are
modelled as a deterministic transition system.  One `Act.workerPoll`
step is one iteration of the worker loop: check
`shutdown.is_set() and queue.empty()` and break, or pop the head entry,
execute it (limiter wait, `drive`, optional duration sleep then `stop`),
and mark it done.  Trace events record the motor-controller calls.
The execution limiter's `wait_for_token()` always terminates (rate is
validated positive), so it delays but never reorders or drops commands;
it is therefore not part of this trace machine.  Exception paths inside
`_worker` (the `finally` drain that guards against a crashing
`motor_controller.drive`) are not modelled: the pure embedding cannot
raise. -/

/-- Calls observed by the motor controller. -/
inductive MotorEvent where
  | drive (left_speed right_speed : ℚ)
  | stop
deriving DecidableEq, Repr

/-- The motor-controller calls one queue entry produces when the worker
executes it: non-"drive" kinds are skipped; a "drive" entry yields
`drive(left, right)` and, when `command.duration_s` is truthy (set and
non-zero), a trailing `stop()` after the duration sleep. -/
def execEntry (e : String × DriveCommand) : List MotorEvent :=
  if e.1 = "drive" then
    MotorEvent.drive e.2.left_speed e.2.right_speed ::
      (match e.2.duration_s with
       | some d => if d = 0 then [] else [MotorEvent.stop]
       | none => [])
  else []

/-- Whole-system state: the queue object plus the actuator trace and the
ghost history of accepted (`arrivals`) and worker-executed (`executed`)
drive commands. -/
structure SysState where
  cq : CommandQueue
  trace : List MotorEvent
  arrivals : List DriveCommand
  executed : List DriveCommand
deriving DecidableEq, Repr

/-- Actions of producers, the lifecycle methods and the worker. -/
inductive Act where
  | enqueue (c : DriveCommand)
  | start
  | stopSignal
  | stopJoin
  | clear
  | workerPoll
deriving DecidableEq, Repr

/-- One atomic step of the system.  Actions whose Python counterpart
would block or be a no-op in the current state leave the state
unchanged (`stopJoin` models the tail of `stop()`: it can only complete
once the worker coroutine has exited). -/
def stepFn (s : SysState) : Act → SysState
  | .enqueue c =>
    match s.cq.enqueue_drive c with
    | .ok (_, q') => { s with cq := q', arrivals := s.arrivals ++ [c] }
    | .error _ => s
  | .start => { s with cq := s.cq.start }
  | .stopSignal => { s with cq := { s.cq with shutdown := true } }
  | .stopJoin =>
    match s.cq.workerTask with
    | some false => { s with cq := { s.cq with workerTask := none } }
    | _ => s
  | .clear => { s with cq := s.cq.clear }
  | .workerPoll =>
    match s.cq.workerTask with
    | some true =>
      match s.cq.queue with
      | [] =>
        if s.cq.shutdown then
          -- `if self._shutdown.is_set() and self._queue.empty(): break`;
          -- the `finally` drain then finds the queue already empty.
          { s with cq := { s.cq with workerTask := some false } }
        else
          s  -- `asyncio.wait_for(..., timeout=0.1)` times out; loop again.
      | e :: rest =>
        -- the head entry is fetched and executed regardless of `shutdown`
        { s with
            cq := { s.cq with queue := rest, unfinished := s.cq.unfinished - 1 }
            trace := s.trace ++ execEntry e
            executed := s.executed ++ (if e.1 = "drive" then [e.2] else []) }
    | _ => s

/-- Run a list of actions from a state. -/
def runActs (s : SysState) : List Act → SysState
  | [] => s
  | a :: acts => runActs (stepFn s a) acts

/-- Initial system state: a freshly constructed queue, nothing traced. -/
def initSys (maxsize : ℤ) : SysState :=
  { cq := CommandQueue.init maxsize, trace := [], arrivals := [], executed := [] }

/-- A sequence of `enqueue_drive` calls, threading the queue and
collecting each call's outcome (depth or `CommandQueueFullError`). -/
def CommandQueue.enqueueList (q : CommandQueue) :
    List DriveCommand → List (Except String ℤ) × CommandQueue
  | [] => ([], q)
  | c :: cs =>
    match q.enqueue_drive c with
    | .ok (d, q') =>
      let r := q'.enqueueList cs
      (.ok d :: r.1, r.2)
    | .error msg =>
      let r := q.enqueueList cs
      (.error msg :: r.1, r.2)

/-- The subsequence of `motor_controller.drive` invocations in a trace,
as `(left_speed, right_speed)` pairs. -/
def driveCalls : List MotorEvent → List (ℚ × ℚ)
  | [] => []
  | .drive l r :: es => (l, r) :: driveCalls es
  | .stop :: es => driveCalls es

/-! ### Request dispatcher (app.py) -/

/-- The response bodies the dispatcher produces, one constructor per
shape of dict the handlers build. -/
inductive ResponseBody where
  | detail (msg : String)
  | queued (queue_depth : ℤ)
  | statusMsg (status : String)
  | configSnapshot (s : ConfigSnapshot)
deriving DecidableEq, Repr

/-- `Response` dataclass. -/
structure Response where
  status_code : ℤ
  body : ResponseBody
deriving DecidableEq, Repr

/-- JSON payload of `POST /drive/differential`, as the handler reads it:
`payload.get(...)` yields `none` for a missing key, and a present value
passes the `isinstance(value, (int, float))` check only if numeric — a
non-numeric value behaves exactly like a missing one in
`_validate_speed` (both raise), so this model carries numeric values. -/
structure DrivePayload where
  left_speed : Option ℚ
  right_speed : Option ℚ
  duration_s : Option ℚ
deriving DecidableEq, Repr

/-- `ControlServiceApp._validate_speed`. -/
def validate_speed (value : Option ℚ) (name : String) : Except String ℚ :=
  match value with
  | none => .error (name ++ " is required")
  | some v =>
    if v < -1 ∨ 1 < v then .error (name ++ " must be between -1 and 1")
    else .ok v

/-- The validated payload shape `_handle_drive` accepts without raising:
both speeds present and within `[-1, 1]`, duration absent or positive. -/
def DrivePayload.valid (p : DrivePayload) : Prop :=
  (match p.left_speed with | some v => -1 ≤ v ∧ v ≤ 1 | none => False) ∧
  (match p.right_speed with | some v => -1 ≤ v ∧ v ≤ 1 | none => False) ∧
  (match p.duration_s with | some d => 0 < d | none => True)

instance (p : DrivePayload) : Decidable p.valid := by
  unfold DrivePayload.valid
  cases p.left_speed <;> cases p.right_speed <;> cases p.duration_s <;> exact inferInstance

/-- The application state touched by the drive and config handlers. -/
structure AppState where
  config : ControlServiceConfig
  ingress_limiter : TokenBucket
  execution_limiter : TokenBucket
  command_queue : CommandQueue
deriving DecidableEq, Repr

/-- `ControlServiceApp._handle_drive`, with the raising validations
rendered as the 422 response `handle_request` converts them to (they run
before any state mutation).  `now` is the monotonic time at which
`ingress_limiter.allow()` reads the clock. -/
def handle_drive (st : AppState) (p : DrivePayload) (now : ℚ) : AppState × Response :=
  match validate_speed p.left_speed "left_speed" with
  | .error msg => (st, ⟨422, .detail msg⟩)
  | .ok left =>
    match validate_speed p.right_speed "right_speed" with
    | .error msg => (st, ⟨422, .detail msg⟩)
    | .ok right =>
      match p.duration_s with
      | some d =>
        if d ≤ 0 then (st, ⟨422, .detail "duration_s must be a positive number"⟩)
        else driveAdmit st left right (some d) now
      | none => driveAdmit st left right none now
where
  /-- the tail of `_handle_drive` after validation: ingress admission,
  then enqueue. -/
  driveAdmit (st : AppState) (left right : ℚ) (duration : Option ℚ) (now : ℚ) :
      AppState × Response :=
    let a := st.ingress_limiter.allow now
    let st := { st with ingress_limiter := a.2 }
    if a.1 = false then
      (st, ⟨429, .detail "Command rate limit exceeded"⟩)
    else
      match st.command_queue.enqueue_drive
          { left_speed := left, right_speed := right, duration_s := duration } with
      | .error msg => (st, ⟨503, .detail msg⟩)
      | .ok (depth, q') =>
        ({ st with command_queue := q' }, ⟨202, .queued depth⟩)

/-- A present `ingress_rate_limit` / `execution_rate_limit` object in a
`PATCH /config` payload, after the handler's `float(...)` / `int(...)`
coercions of its `rate_per_second` and `burst` members. -/
structure RateLimitSettingsPayload where
  rate_per_second : ℚ
  burst : ℤ
deriving DecidableEq, Repr

/-- JSON payload of `PATCH /config` as `_handle_patch_config` reads it
(after the `float(...)` / `int(...)` coercions on present fields). -/
structure ConfigPatchPayload where
  ingress_rate_limit : Option RateLimitSettingsPayload
  execution_rate_limit : Option RateLimitSettingsPayload
  queue_maxsize : Option ℤ
deriving DecidableEq, Repr

/-- `ControlServiceApp._handle_patch_config`.  Fields are applied
strictly in source order (ingress, execution, queue size); a
`ValueError` raised while applying a field aborts the remainder, and
`handle_request` turns it into a 422 — mutations already performed by
earlier fields persist, exactly as in the Python object state. -/
def handle_patch_config (st : AppState) (p : ConfigPatchPayload) : AppState × Response :=
  match applyIngress st p.ingress_rate_limit with
  | (st, some resp) => (st, resp)
  | (st, none) =>
    match applyExecution st p.execution_rate_limit with
    | (st, some resp) => (st, resp)
    | (st, none) =>
      match applyQueueMaxsize st p.queue_maxsize with
      | (st, some resp) => (st, resp)
      | (st, none) => (st, ⟨200, .configSnapshot st.config.snapshot⟩)
where
  /-- `ingress_rate_limit` branch: construct `RateLimitSettings` (its
  `__post_init__` may raise before the assignment), assign it into the
  config, then `configure` the live limiter with the stored values. -/
  applyIngress (st : AppState) : Option RateLimitSettingsPayload →
      AppState × Option Response
    | none => (st, none)
    | some rl =>
      match RateLimitSettings.make rl.rate_per_second rl.burst with
      | .error msg => (st, some ⟨422, .detail msg⟩)
      | .ok settings =>
        let st := { st with config := { st.config with ingress_rate_limit := settings } }
        match st.ingress_limiter.configure settings.rate_per_second settings.burst with
        | .error msg => (st, some ⟨422, .detail msg⟩)
        | .ok lim => ({ st with ingress_limiter := lim }, none)
  /-- `execution_rate_limit` branch, same shape. -/
  applyExecution (st : AppState) : Option RateLimitSettingsPayload →
      AppState × Option Response
    | none => (st, none)
    | some rl =>
      match RateLimitSettings.make rl.rate_per_second rl.burst with
      | .error msg => (st, some ⟨422, .detail msg⟩)
      | .ok settings =>
        let st := { st with config := { st.config with execution_rate_limit := settings } }
        match st.execution_limiter.configure settings.rate_per_second settings.burst with
        | .error msg => (st, some ⟨422, .detail msg⟩)
        | .ok lim => ({ st with execution_limiter := lim }, none)
  /-- `queue_maxsize` branch: explicit `<= 0` check raising before any
  mutation, then the config assignment, then `set_maxsize` on the live
  queue. -/
  applyQueueMaxsize (st : AppState) : Option ℤ → AppState × Option Response
    | none => (st, none)
    | some v =>
      if v ≤ 0 then (st, some ⟨422, .detail "queue_maxsize must be positive"⟩)
      else
        let st := { st with config := { st.config with queue_maxsize := v } }
        match st.command_queue.set_maxsize v with
        | .error msg => (st, some ⟨422, .detail msg⟩)
        | .ok q => ({ st with command_queue := q }, none)

/-! ### Authentication and routing (app.py: handle_request / _authenticate)

`ipaddress.ip_address` / `ip_network` are modelled for the IPv4 dotted-quad
form the service's configuration and headers use: an address is four
dot-separated decimal octets in `0..255`, a network is an address plus a
prefix length; membership compares the bits above the host part. -/

/-- Parse one dotted-quad octet (digits only, value at most 255). -/
def parseOctet (s : String) : Option ℕ :=
  match s.toNat? with
  | some n => if n ≤ 255 then some n else none
  | none => none

/-- Parse an IPv4 address string into its 32-bit numeric value. -/
def parseIPv4 (s : String) : Option ℕ :=
  match (s.splitOn ".").map parseOctet with
  | [some a, some b, some c, some d] => some (((a * 256 + b) * 256 + c) * 256 + d)
  | _ => none

/-- A parsed CIDR block: network value and the number of leading mask
bits (the `/p` component). -/
structure Cidr where
  network : ℕ
  maskBits : ℕ
deriving DecidableEq, Repr

/-- Parse a CIDR string `a.b.c.d/p` (a bare address means `/32`). -/
def parseCidr (s : String) : Option Cidr :=
  match s.splitOn "/" with
  | [addr] => (parseIPv4 addr).map fun ip => ⟨ip, 32⟩
  | [addr, p] =>
    match parseIPv4 addr, p.toNat? with
    | some ip, some n => if n ≤ 32 then some ⟨ip, n⟩ else none
    | _, _ => none
  | _ => none

/-- `ip_obj in network`: the address and the network agree on the top
`maskBits` bits. -/
def Cidr.contains (c : Cidr) (ip : ℕ) : Bool :=
  ip / 2 ^ (32 - c.maskBits) = c.network / 2 ^ (32 - c.maskBits)

/-- Case-sensitive lookup in the request header map (`headers.get(k)`). -/
def headerGet (headers : List (String × String)) (key : String) : Option String :=
  (headers.find? fun h => h.1 = key).map Prod.snd

/-- `ControlServiceApp._authenticate`: the API-key check runs first and
returns 401 before any client-IP handling; then the client IP is the
first comma-separated entry of a truthy `X-Forwarded-For` (loopback when
the header is absent or empty), 400 when it does not parse, 403 when no
allowed network contains it.  `allowed_networks` is the list the app
parsed from the config at construction time.  Returns `none` when the
request passes. -/
def authenticate (api_keys : List String) (allowed_networks : List Cidr)
    (headers : List (String × String)) : Option Response :=
  let keyOk : Bool := match headerGet headers "X-Api-Key" with
    | some k => api_keys.contains k
    | none => false
  if keyOk = false then some ⟨401, .detail "Invalid API key"⟩
  else
    let client_ip := match headerGet headers "X-Forwarded-For" with
      | some f => if f = "" then "127.0.0.1" else ((f.splitOn ",").headD "").trim
      | none => "127.0.0.1"
    match parseIPv4 client_ip with
    | none => some ⟨400, .detail "Invalid client IP"⟩
    | some ip =>
      if allowed_networks.any fun net => net.contains ip then none
      else some ⟨403, .detail "Client network not permitted"⟩

/-- The keys of the `_routes` dict built in `ControlServiceApp.__init__`. -/
def routeTable : List (String × String) :=
  [("POST", "/drive/differential"),
   ("POST", "/drive/stop"),
   ("POST", "/drive/brake"),
   ("POST", "/drive/emergency-stop"),
   ("POST", "/drive/reset"),
   ("POST", "/pan-tilt/position"),
   ("GET", "/telemetry/ultrasonic"),
   ("GET", "/telemetry/line"),
   ("GET", "/config"),
   ("PATCH", "/config")]

/-- Where `handle_request` goes after its prologue: either an immediate
response (auth failure or 404) or dispatch to the route keyed by the
upper-cased method and the path. -/
inductive GateResult where
  | response (r : Response)
  | dispatch (key : String × String)
deriving DecidableEq, Repr

/-- The prologue of `ControlServiceApp.handle_request`: authenticate,
then look the `(method.upper(), path)` pair up in the route table,
answering 404 when it is absent.  (The dispatched handler call and the
central `ValueError` → 422 conversion happen after this point and are
modelled per-handler above.) -/
def handle_request_gate (api_keys : List String) (allowed_networks : List Cidr)
    (method path : String) (headers : List (String × String)) : GateResult :=
  match authenticate api_keys allowed_networks headers with
  | some r => .response r
  | none =>
    let key := (method.toUpper, path)
    if key ∈ routeTable then .dispatch key
    else .response ⟨404, .detail "Not Found"⟩

/-- The application state `create_app()` builds with the default
configuration (`ControlServiceConfig(api_keys={"local"})`): both
limiters constructed full from the config's rate settings (clock read
taken as 0) and a fresh queue with the configured maxsize. -/
def defaultAppState : AppState :=
  { config :=
      { api_keys := ["local"], allowed_networks := ["127.0.0.0/8"]
        ingress_rate_limit := { rate_per_second := 5, burst := 5 }
        execution_rate_limit := { rate_per_second := 10, burst := 5 }
        queue_maxsize := 32 }
    ingress_limiter := TokenBucket.init 5 5 0
    execution_limiter := TokenBucket.init 10 5 0
    command_queue := CommandQueue.init 32 }

/-! ## Claims -/

/-- C8: a token bucket configured with `rate_per_second = 2` and
burst/capacity 2, starting full: two `allow()` calls at the same instant
both succeed, a third immediate `allow()` fails, and after the monotonic
clock advances by 0.5 seconds a fourth `allow()` succeeds. -/
theorem c8_rate_two_burst_two_scenario :
    ((TokenBucket.init 2 2 0).allowRun [0, 0, 0, 1/2]).1 = [true, true, false, true] := by
  norm_num [TokenBucket.allowRun, TokenBucket.allow, TokenBucket.refill, TokenBucket.init]

/-- C4, counterexample: with capacity `C = 2` and rate `R = 2` (so
`C/R = 1` second), a bucket starting full at time 0 grants three
`allow()` calls at times 0, 0 and 1/2 — three tokens consumed inside the
window `[0, 1/2]`, which is shorter than `C/R`, refuting the claimed
bound of at most `C = 2` consumptions in any such window. -/
theorem c4_counterexample :
    (((TokenBucket.init 2 2 0).allowRun [0, 0, 1/2]).1.count true = 3)
    ∧ (∀ t ∈ [(0 : ℚ), 0, 1/2], 0 ≤ t ∧ t ≤ 0 + 1/2)
    ∧ ((1/2 : ℚ) < (2 : ℚ) / 2)
    ∧ ¬ (((TokenBucket.init 2 2 0).allowRun [0, 0, 1/2]).1.count true ≤ 2) := by
  refine ⟨?_, ?_, by norm_num, ?_⟩ <;>
    norm_num [TokenBucket.allowRun, TokenBucket.allow, TokenBucket.refill, TokenBucket.init]

/-- C2, counterexample: with the worker running, enqueue one drive
command and then signal `stop()`.  The entry is still queued (and
unstarted) when the shutdown flag is set, yet the worker's next loop
iteration pops and executes it: `motor_controller.drive` is invoked.
The worker only breaks out of its loop when the shutdown flag is set
AND the queue is empty, so queued entries are executed — not drained
without execution — on the way to shutdown. -/
theorem c2_counterexample :
    (runActs (initSys 4) [.start, .enqueue ⟨1/2, -(1/4), none⟩, .stopSignal]).cq.queue
        = [("drive", ⟨1/2, -(1/4), none⟩)]
    ∧ (runActs (initSys 4) [.start, .enqueue ⟨1/2, -(1/4), none⟩, .stopSignal]).cq.shutdown
        = true
    ∧ (runActs (initSys 4)
        [.start, .enqueue ⟨1/2, -(1/4), none⟩, .stopSignal, .workerPoll]).trace
        = [MotorEvent.drive (1/2) (-(1/4))] := by
  refine ⟨?_, ?_, ?_⟩ <;>
    norm_num [runActs, stepFn, initSys, CommandQueue.init, CommandQueue.start,
      CommandQueue.enqueue_drive, execEntry]

/-- Running a list of actions decomposes into running its parts. -/
theorem runActs_append (s : SysState) (l₁ l₂ : List Act) :
    runActs s (l₁ ++ l₂) = runActs (runActs s l₁) l₂ := by
  induction l₁ generalizing s with
  | nil => rfl
  | cons a l ih => simp [runActs, ih]

/-- Repeating an action that leaves a state fixed keeps it fixed. -/
theorem runActs_replicate_fix (s : SysState) (a : Act) (h : stepFn s a = s) (n : ℕ) :
    runActs s (List.replicate n a) = s := by
  induction n with
  | zero => rfl
  | succ n ih => simpa [List.replicate_succ, runActs, h] using ih

/-- C3 (code bug): `stop()` sets the `_shutdown` event but nothing ever
clears it, so after `stop()` completes and `start()` spawns a fresh
worker task, that worker exits at its very first poll of the (empty)
queue — `shutdown.is_set() and queue.empty()` — instead of looping.
A drive command enqueued afterwards is never executed and never marked
done: however many further poll opportunities the worker is given
(`n`), the trace stays empty, the entry stays queued, and the
unfinished-task count stays 1, so `wait_until_idle()` would block
forever.  This contradicts the restartability the lifecycle promises. -/
theorem c3_restarted_worker_never_processes (n : ℕ) :
    (runActs (initSys 4)
        ([Act.start, Act.stopSignal, Act.workerPoll, Act.stopJoin, Act.start, Act.workerPoll,
          Act.enqueue ⟨1/2, 1/2, none⟩] ++ List.replicate n Act.workerPoll)).cq.workerTask
        = some false
    ∧ (runActs (initSys 4)
        ([Act.start, Act.stopSignal, Act.workerPoll, Act.stopJoin, Act.start, Act.workerPoll,
          Act.enqueue ⟨1/2, 1/2, none⟩] ++ List.replicate n Act.workerPoll)).trace = []
    ∧ (runActs (initSys 4)
        ([Act.start, Act.stopSignal, Act.workerPoll, Act.stopJoin, Act.start, Act.workerPoll,
          Act.enqueue ⟨1/2, 1/2, none⟩] ++ List.replicate n Act.workerPoll)).cq.queue
        = [("drive", ⟨1/2, 1/2, none⟩)]
    ∧ ¬ (runActs (initSys 4)
        ([Act.start, Act.stopSignal, Act.workerPoll, Act.stopJoin, Act.start, Act.workerPoll,
          Act.enqueue ⟨1/2, 1/2, none⟩] ++ List.replicate n Act.workerPoll)).cq.idle := by
  have hpre : runActs (initSys 4)
      [Act.start, Act.stopSignal, Act.workerPoll, Act.stopJoin, Act.start, Act.workerPoll,
        Act.enqueue ⟨1/2, 1/2, none⟩]
      = { cq := { maxsize := 4, queue := [("drive", ⟨1/2, 1/2, none⟩)], unfinished := 1
                  shutdown := true, workerTask := some false }
          trace := [], arrivals := [⟨1/2, 1/2, none⟩], executed := [] } := by
    norm_num [runActs, stepFn, initSys, CommandQueue.init, CommandQueue.start,
      CommandQueue.enqueue_drive]
  rw [runActs_append, hpre, runActs_replicate_fix _ _ (by rfl)]
  refine ⟨rfl, rfl, rfl, by simp [CommandQueue.idle]⟩

/-- C1, counterexample: a `PATCH /config` payload containing a valid
`ingress_rate_limit` together with `queue_maxsize = 0`, applied to the
default configuration, returns 422 — but the handler had already applied
the ingress field (config record and live limiter parameters both
changed from `(5, 5)` to `(7, 3)`) before validating `queue_maxsize`, so
the configuration observable afterwards is NOT the configuration before
the request. -/
theorem c1_counterexample :
    (handle_patch_config defaultAppState
        { ingress_rate_limit := some ⟨7, 3⟩, execution_rate_limit := none
          queue_maxsize := some 0 }).2.status_code = 422
    ∧ (handle_patch_config defaultAppState
        { ingress_rate_limit := some ⟨7, 3⟩, execution_rate_limit := none
          queue_maxsize := some 0 }).1.config.ingress_rate_limit = ⟨7, 3⟩
    ∧ (handle_patch_config defaultAppState
        { ingress_rate_limit := some ⟨7, 3⟩, execution_rate_limit := none
          queue_maxsize := some 0 }).1.ingress_limiter.state = ⟨7, 3⟩
    ∧ defaultAppState.config.ingress_rate_limit = ⟨5, 5⟩
    ∧ defaultAppState.ingress_limiter.state = ⟨5, 5⟩
    ∧ (handle_patch_config defaultAppState
        { ingress_rate_limit := some ⟨7, 3⟩, execution_rate_limit := none
          queue_maxsize := some 0 }).1.config ≠ defaultAppState.config := by
  refine ⟨?_, ?_, ?_, rfl, rfl, ?_⟩ <;>
    norm_num [handle_patch_config, handle_patch_config.applyIngress,
      handle_patch_config.applyExecution, handle_patch_config.applyQueueMaxsize,
      RateLimitSettings.make, TokenBucket.configure, defaultAppState, TokenBucket.init,
      CommandQueue.init]

/-- The ingress branch of the patch handler never touches the queue
size or the command queue, only ever reports 422, and is the identity
on an absent field. -/
theorem applyIngress_preserves (st : AppState) (o : Option RateLimitSettingsPayload) :
    (handle_patch_config.applyIngress st o).1.config.queue_maxsize = st.config.queue_maxsize
    ∧ (handle_patch_config.applyIngress st o).1.command_queue = st.command_queue
    ∧ (∀ r, (handle_patch_config.applyIngress st o).2 = some r → r.status_code = 422)
    ∧ (o = none → handle_patch_config.applyIngress st o = (st, none)) := by
  cases o with
  | none => simp [handle_patch_config.applyIngress]
  | some rl =>
    simp only [handle_patch_config.applyIngress]
    cases RateLimitSettings.make rl.rate_per_second rl.burst with
    | error msg => simp
    | ok s =>
      cases h : st.ingress_limiter.configure s.rate_per_second s.burst <;> simp [h]

/-- Same facts for the execution branch. -/
theorem applyExecution_preserves (st : AppState) (o : Option RateLimitSettingsPayload) :
    (handle_patch_config.applyExecution st o).1.config.queue_maxsize = st.config.queue_maxsize
    ∧ (handle_patch_config.applyExecution st o).1.command_queue = st.command_queue
    ∧ (∀ r, (handle_patch_config.applyExecution st o).2 = some r → r.status_code = 422)
    ∧ (o = none → handle_patch_config.applyExecution st o = (st, none)) := by
  cases o with
  | none => simp [handle_patch_config.applyExecution]
  | some rl =>
    simp only [handle_patch_config.applyExecution]
    cases RateLimitSettings.make rl.rate_per_second rl.burst with
    | error msg => simp
    | ok s =>
      cases h : st.execution_limiter.configure s.rate_per_second s.burst <;> simp [h]

/-- C1, amended: a `PATCH /config` whose payload contains
`queue_maxsize ≤ 0` returns 422 and leaves the `queue_maxsize` config
field and the live command queue (in particular its enforced maxsize)
unchanged; when it is the only field present, the whole application
state is unchanged.  However, fields are applied in source order
(ingress, execution, queue size) and the first invalid field aborts only
the REMAINDER of the patch: rate-limit fields applied before the invalid
one remain applied (see the counterexample). -/
theorem c1_patch_invalid_queue_maxsize (st : AppState) (p : ConfigPatchPayload) (v : ℤ)
    (hv : p.queue_maxsize = some v) (hv0 : v ≤ 0) :
    (handle_patch_config st p).2.status_code = 422
    ∧ (handle_patch_config st p).1.config.queue_maxsize = st.config.queue_maxsize
    ∧ (handle_patch_config st p).1.command_queue = st.command_queue
    ∧ (p.ingress_rate_limit = none → p.execution_rate_limit = none →
        (handle_patch_config st p).1 = st) := by
  rcases hI : handle_patch_config.applyIngress st p.ingress_rate_limit with ⟨st1, r1⟩
  have hIp := applyIngress_preserves st p.ingress_rate_limit
  rw [hI] at hIp
  cases r1 with
  | some resp =>
    have hres : handle_patch_config st p = (st1, resp) := by
      simp [handle_patch_config, hI]
    refine ⟨by rw [hres]; exact hIp.2.2.1 resp rfl,
            by rw [hres]; exact hIp.1,
            by rw [hres]; exact hIp.2.1, ?_⟩
    intro hnone _
    exact absurd (hIp.2.2.2 hnone) (by simp)
  | none =>
    rcases hE : handle_patch_config.applyExecution st1 p.execution_rate_limit with ⟨st2, r2⟩
    have hEp := applyExecution_preserves st1 p.execution_rate_limit
    rw [hE] at hEp
    cases r2 with
    | some resp =>
      have hres : handle_patch_config st p = (st2, resp) := by
        simp [handle_patch_config, hI, hE]
      refine ⟨by rw [hres]; exact hEp.2.2.1 resp rfl,
              by rw [hres]; rw [hEp.1]; exact hIp.1,
              by rw [hres]; rw [hEp.2.1]; exact hIp.2.1, ?_⟩
      intro _ hnone
      exact absurd (hEp.2.2.2 hnone) (by simp)
    | none =>
      have hres : handle_patch_config st p
          = (st2, ⟨422, .detail "queue_maxsize must be positive"⟩) := by
        simp [handle_patch_config, hI, hE, handle_patch_config.applyQueueMaxsize, hv, hv0]
      refine ⟨by rw [hres],
              by rw [hres]; rw [hEp.1]; exact hIp.1,
              by rw [hres]; rw [hEp.2.1]; exact hIp.2.1, ?_⟩
      intro hInone hEnone
      have h1 := hIp.2.2.2 hInone
      have h2 := hEp.2.2.2 hEnone
      simp only [Prod.mk.injEq] at h1 h2
      rw [hres]
      rw [h2.1, h1.1]

/-- Witness for `c1_patch_invalid_queue_maxsize`: the default state with
a payload whose only field is `queue_maxsize = 0`. -/
theorem c1_patch_invalid_queue_maxsize_witness :
    (handle_patch_config defaultAppState
        { ingress_rate_limit := none, execution_rate_limit := none
          queue_maxsize := some 0 }).2.status_code = 422
    ∧ (handle_patch_config defaultAppState
        { ingress_rate_limit := none, execution_rate_limit := none
          queue_maxsize := some 0 }).1 = defaultAppState := by
  have h := c1_patch_invalid_queue_maxsize defaultAppState
    { ingress_rate_limit := none, execution_rate_limit := none, queue_maxsize := some 0 }
    0 rfl (by norm_num)
  exact ⟨h.1, h.2.2.2 rfl rfl⟩

/-- Draining run of the worker once shutdown is signalled: from any
state with the worker alive, the shutdown flag set and `Q` entries
queued (all accounted in the unfinished counter), `Q.length + 1` loop
iterations execute every queued entry in FIFO order (emitting its motor
calls), mark each done, and then exit the loop. -/
theorem worker_shutdown_run (Q : List (String × DriveCommand)) :
    ∀ s : SysState, s.cq.queue = Q → s.cq.workerTask = some true →
    s.cq.shutdown = true → s.cq.unfinished = Q.length →
    runActs s (List.replicate (Q.length + 1) Act.workerPoll) =
      { cq := { s.cq with queue := [], unfinished := 0, workerTask := some false }
        trace := s.trace ++ Q.flatMap execEntry
        arrivals := s.arrivals
        executed := s.executed ++ Q.flatMap (fun e => if e.1 = "drive" then [e.2] else []) } := by
  induction Q with
  | nil =>
    intro s hq ht hs hu
    simp only [List.length_nil, Nat.zero_add, List.replicate_one, runActs, stepFn, ht, hq, hs,
      if_true, List.flatMap_nil, List.append_nil]
    cases s with
    | mk cq trace arrivals executed =>
      cases cq
      simp_all
  | cons e rest ih =>
    intro s hq ht hs hu
    have hstep : stepFn s Act.workerPoll =
        { s with
            cq := { s.cq with queue := rest, unfinished := s.cq.unfinished - 1 }
            trace := s.trace ++ execEntry e
            executed := s.executed ++ (if e.1 = "drive" then [e.2] else []) } := by
      simp only [stepFn, ht, hq]
    have hlen : (e :: rest).length + 1 = (rest.length + 1) + 1 := by simp
    rw [hlen, List.replicate_succ, runActs, hstep]
    rw [ih _ rfl (by simp [ht]) (by simp [hs]) (by simp [hu, hq])]
    simp [List.append_assoc]

/-- C2, amended: entries still queued when `stop()` is signalled are NOT
drained without execution — the worker keeps popping and EXECUTING them
(in FIFO order, emitting their `drive`/`stop` motor calls) until the
queue is empty, and only then exits.  What survives of the claim is the
completion bookkeeping: every such entry is marked done exactly once, so
the unfinished count reaches 0 and `wait_until_idle()` callers are
released even at shutdown. -/
theorem c2_shutdown_entries_executed_and_marked_done (s : SysState)
    (ht : s.cq.workerTask = some true) (hs : s.cq.shutdown = true)
    (hu : s.cq.unfinished = s.cq.queue.length) :
    (runActs s (List.replicate (s.cq.queue.length + 1) Act.workerPoll)).cq.queue = []
    ∧ (runActs s (List.replicate (s.cq.queue.length + 1) Act.workerPoll)).cq.workerTask
        = some false
    ∧ (runActs s (List.replicate (s.cq.queue.length + 1) Act.workerPoll)).cq.idle
    ∧ (runActs s (List.replicate (s.cq.queue.length + 1) Act.workerPoll)).trace
        = s.trace ++ s.cq.queue.flatMap execEntry := by
  rw [worker_shutdown_run s.cq.queue s rfl ht hs hu]
  exact ⟨rfl, rfl, rfl, rfl⟩

/-- Witness for `c2_shutdown_entries_executed_and_marked_done`: one
queued drive command at shutdown; it is executed (its `drive` call is
traced) and the queue ends empty and idle. -/
theorem c2_shutdown_entries_executed_witness :
    (runActs
        { cq := { maxsize := 4, queue := [("drive", ⟨1/2, -(1/4), none⟩)], unfinished := 1
                  shutdown := true, workerTask := some true }
          trace := [], arrivals := [⟨1/2, -(1/4), none⟩], executed := [] }
        (List.replicate 2 Act.workerPoll)).trace = [MotorEvent.drive (1/2) (-(1/4))]
    ∧ (runActs
        { cq := { maxsize := 4, queue := [("drive", ⟨1/2, -(1/4), none⟩)], unfinished := 1
                  shutdown := true, workerTask := some true }
          trace := [], arrivals := [⟨1/2, -(1/4), none⟩], executed := [] }
        (List.replicate 2 Act.workerPoll)).cq.idle := by
  have h := c2_shutdown_entries_executed_and_marked_done
    { cq := { maxsize := 4, queue := [("drive", ⟨1/2, -(1/4), none⟩)], unfinished := 1
              shutdown := true, workerTask := some true }
      trace := [], arrivals := [⟨1/2, -(1/4), none⟩], executed := [] }
    rfl rfl rfl
  exact ⟨by simpa [execEntry] using h.2.2.2, h.2.2.1⟩

/-- A run of `enqueue_drive` calls splits at a list append. -/
theorem enqueueList_append (l₁ l₂ : List DriveCommand) :
    ∀ q : CommandQueue,
    (q.enqueueList (l₁ ++ l₂)).1
      = (q.enqueueList l₁).1 ++ ((q.enqueueList l₁).2.enqueueList l₂).1
    ∧ (q.enqueueList (l₁ ++ l₂)).2 = ((q.enqueueList l₁).2.enqueueList l₂).2 := by
  induction l₁ with
  | nil => intro q; simp [CommandQueue.enqueueList]
  | cons c cs ih =>
    intro q
    simp only [List.cons_append, CommandQueue.enqueueList]
    cases q.enqueue_drive c with
    | ok p => simpa using ih p.2
    | error msg => simpa using ih q

/-- While the configured capacity leaves room for the whole batch, every
`enqueue_drive` succeeds, returning the consecutive depths, and the
batch is appended to the queue in order. -/
theorem enqueueList_within_capacity (cs : List DriveCommand) :
    ∀ q : CommandQueue, (q.queue.length : ℤ) + cs.length ≤ q.maxsize →
    (q.enqueueList cs).1
      = (List.range' (q.queue.length + 1) cs.length).map (fun n => Except.ok (n : ℤ))
    ∧ (q.enqueueList cs).2
      = { q with queue := q.queue ++ cs.map (fun c => ("drive", c))
                 unfinished := q.unfinished + cs.length } := by
  induction cs with
  | nil =>
    intro q _
    refine ⟨by simp [CommandQueue.enqueueList], ?_⟩
    cases q
    simp [CommandQueue.enqueueList]
  | cons c cs ih =>
    intro q hroom
    have hlt : (q.queue.length : ℤ) < q.maxsize := by
      have : (0 : ℤ) < (cs.length : ℤ) + 1 := by positivity
      simp only [List.length_cons] at hroom
      push_cast at hroom
      linarith
    have hok : q.enqueue_drive c
        = .ok (((q.queue.length : ℤ) + 1),
               { q with queue := q.queue ++ [("drive", c)]
                        unfinished := q.unfinished + 1 }) := by
      simp only [CommandQueue.enqueue_drive]
      rw [if_neg]
      · simp
      · rintro ⟨-, hle⟩
        exact absurd hle (not_le.mpr hlt)
    simp only [CommandQueue.enqueueList, hok]
    have hroom' : (({ q with queue := q.queue ++ [("drive", c)]
                             unfinished := q.unfinished + 1 } : CommandQueue).queue.length : ℤ)
        + cs.length
        ≤ ({ q with queue := q.queue ++ [("drive", c)]
                    unfinished := q.unfinished + 1 } : CommandQueue).maxsize := by
      simp only [List.length_append, List.length_cons, List.length_nil]
      simp only [List.length_cons] at hroom
      push_cast at hroom ⊢
      linarith
    obtain ⟨h1, h2⟩ := ih _ hroom'
    refine ⟨?_, ?_⟩
    · simp only [h1, List.length_cons, List.range'_succ, List.map_cons]
      simp [Nat.add_assoc, Nat.add_comm 1]
    · rw [h2]
      simp [List.append_assoc, Nat.add_assoc, Nat.add_comm 1]

/-- C5: with `queue_maxsize = N > 0`, no worker draining and an
initially empty queue, the first `N` `enqueue_drive` calls succeed and
return depths `1, 2, ..., N`, and the `(N+1)`-th call fails with
`CommandQueueFullError` without blocking and without adding its entry:
the queue afterwards holds exactly the first `N` commands, in order. -/
theorem c5_first_n_succeed_then_full (N : ℕ) (hN : 0 < N) (cs : List DriveCommand)
    (cLast : DriveCommand) (hlen : cs.length = N) (q : CommandQueue)
    (hq : q.queue = []) (hm : q.maxsize = (N : ℤ)) :
    (q.enqueueList (cs ++ [cLast])).1
      = (List.range' 1 N).map (fun n => Except.ok (n : ℤ))
        ++ [Except.error "Drive command queue is full"]
    ∧ (q.enqueueList (cs ++ [cLast])).2.queue = cs.map (fun c => ("drive", c)) := by
  have hroom : (q.queue.length : ℤ) + cs.length ≤ q.maxsize := by
    simp [hq, hlen, hm]
  obtain ⟨h1, h2⟩ := enqueueList_within_capacity cs q hroom
  obtain ⟨ha, hb⟩ := enqueueList_append cs [cLast] q
  have hfull : ((q.enqueueList cs).2).enqueue_drive cLast
      = .error "Drive command queue is full" := by
    rw [h2]
    simp only [CommandQueue.enqueue_drive]
    rw [if_pos]
    constructor
    · simp only [hm]
      exact_mod_cast hN.ne'
    · simp [hq, hlen, hm]
  refine ⟨?_, ?_⟩
  · rw [ha, h1, hq]
    simp [CommandQueue.enqueueList, hfull, hlen]
  · rw [hb]
    simp only [CommandQueue.enqueueList, hfull]
    rw [h2]
    simp [hq]

/-- Witness for `c5_first_n_succeed_then_full`: `N = 2`, three enqueues
on a fresh queue of maxsize 2. -/
theorem c5_first_n_succeed_then_full_witness :
    ((CommandQueue.init 2).enqueueList [⟨1/2, 1/2, none⟩, ⟨-(1/2), 0, none⟩, ⟨1, 1, none⟩]).1
      = [Except.ok 1, Except.ok 2, Except.error "Drive command queue is full"]
    ∧ ((CommandQueue.init 2).enqueueList
        [⟨1/2, 1/2, none⟩, ⟨-(1/2), 0, none⟩, ⟨1, 1, none⟩]).2.queue
      = [("drive", ⟨1/2, 1/2, none⟩), ("drive", ⟨-(1/2), 0, none⟩)] := by
  have h := c5_first_n_succeed_then_full 2 (by norm_num)
    [⟨1/2, 1/2, none⟩, ⟨-(1/2), 0, none⟩] ⟨1, 1, none⟩ rfl
    (CommandQueue.init 2) rfl rfl
  refine ⟨?_, ?_⟩
  · have := h.1
    simpa [List.range'] using this
  · simpa using h.2

/-- With `_maxsize = 0` the Python truthiness test
`if self._maxsize and ...` short-circuits to false, so every enqueue
succeeds and the maxsize stays 0. -/
theorem enqueueList_maxsize_zero_all_ok (cs : List DriveCommand) :
    ∀ q : CommandQueue, q.maxsize = 0 →
    ∀ r ∈ (q.enqueueList cs).1, ∃ d, r = Except.ok d := by
  induction cs with
  | nil => intro q _; simp [CommandQueue.enqueueList]
  | cons c cs ih =>
    intro q h
    have hok : q.enqueue_drive c
        = .ok ((((q.queue ++ [("drive", c)]).length : ℤ)),
               { q with queue := q.queue ++ [("drive", c)]
                        unfinished := q.unfinished + 1 }) := by
      simp [CommandQueue.enqueue_drive, h]
    simp only [CommandQueue.enqueueList, hok]
    intro r hr
    rcases List.mem_cons.mp hr with h1 | h2
    · exact ⟨_, h1⟩
    · exact ih _ (by simp [h]) r h2

/-- C10: a `CommandQueue` constructed directly with `maxsize = 0` gets
no validation (`__init__` stores it as-is) and its capacity check is
disabled entirely: no sequence of `enqueue_drive` calls ever raises
`CommandQueueFullError` — the queue is effectively unbounded — even
though `set_maxsize` and the config layer (`ControlServiceConfig`'s
`__post_init__`) both reject non-positive sizes. -/
theorem c10_maxsize_zero_unbounded (q : CommandQueue) (hq : q.maxsize = 0)
    (cs : List DriveCommand) (m : ℤ) (hm : m ≤ 0)
    (keys nets : List String) (irl erl : RateLimitSettings) (qm : ℤ) (hqm : qm ≤ 0) :
    (CommandQueue.init 0).maxsize = 0
    ∧ (∀ r ∈ (q.enqueueList cs).1, ∃ d, r = Except.ok d)
    ∧ q.set_maxsize m = .error "maxsize must be positive"
    ∧ ControlServiceConfig.make keys nets irl erl qm
        = .error "queue_maxsize must be positive" := by
  refine ⟨rfl, enqueueList_maxsize_zero_all_ok cs q hq, ?_, ?_⟩
  · simp [CommandQueue.set_maxsize, hm]
  · simp [ControlServiceConfig.make, hqm]

/-- Witness for `c10_maxsize_zero_unbounded`: three enqueues on a
maxsize-0 queue all succeed; `set_maxsize 0` and a zero-size config are
rejected. -/
theorem c10_maxsize_zero_unbounded_witness :
    (∀ r ∈ ((CommandQueue.init 0).enqueueList
        [⟨1/2, 1/2, none⟩, ⟨0, 0, none⟩, ⟨1, -1, some 2⟩]).1, ∃ d, r = Except.ok d)
    ∧ (CommandQueue.init 0).set_maxsize 0 = .error "maxsize must be positive"
    ∧ ControlServiceConfig.make ["local"] ["127.0.0.0/8"] ⟨5, 5⟩ ⟨10, 5⟩ 0
        = .error "queue_maxsize must be positive" := by
  have h := c10_maxsize_zero_unbounded (CommandQueue.init 0) rfl
    [⟨1/2, 1/2, none⟩, ⟨0, 0, none⟩, ⟨1, -1, some 2⟩] 0 (by norm_num)
    ["local"] ["127.0.0.0/8"] ⟨5, 5⟩ ⟨10, 5⟩ 0 (by norm_num)
  exact ⟨h.2.1, h.2.2.1, h.2.2.2⟩

/-- C9: authentication runs before routing.  Whenever the `X-Api-Key`
header is missing or its value matches none of the configured keys,
`handle_request` answers 401 — for every method and path, including
pairs absent from the route table — so an unauthenticated client never
observes the 404 route-existence response. -/
theorem c9_auth_before_routing (api_keys : List String) (nets : List Cidr)
    (method path : String) (headers : List (String × String))
    (hk : ∀ k, headerGet headers "X-Api-Key" = some k → k ∉ api_keys) :
    handle_request_gate api_keys nets method path headers
      = .response ⟨401, .detail "Invalid API key"⟩
    ∧ handle_request_gate api_keys nets method path headers
      ≠ .response ⟨404, .detail "Not Found"⟩ := by
  have h401 : handle_request_gate api_keys nets method path headers
      = .response ⟨401, .detail "Invalid API key"⟩ := by
    unfold handle_request_gate authenticate
    cases h : headerGet headers "X-Api-Key" with
    | none => simp [h]
    | some k =>
      simp [h, hk k h]
  exact ⟨h401, by rw [h401]; simp⟩

/-- Witness for `c9_auth_before_routing`: a wrong key on a route that
does not exist still yields 401, not 404. -/
theorem c9_auth_before_routing_witness :
    handle_request_gate ["local"] [⟨2130706432, 8⟩] "GET" "/does-not-exist"
        [("X-Api-Key", "wrong-key")]
      = .response ⟨401, .detail "Invalid API key"⟩
    ∧ ("GET", "/does-not-exist") ∉ routeTable := by
  refine ⟨?_, by simp [routeTable]⟩
  exact (c9_auth_before_routing ["local"] [⟨2130706432, 8⟩] "GET" "/does-not-exist"
    [("X-Api-Key", "wrong-key")]
    (by
      intro k hkeq
      simp [headerGet] at hkeq
      subst hkeq
      simp)).1

/-- Behaviour of the admission tail of `_handle_drive`: a failed
non-blocking ingress check yields 429 with the queue untouched; a
granted token leads to 503 (queue untouched) when the queue is full,
else to 202 with the new depth and the command appended. -/
theorem driveAdmit_spec (st : AppState) (l r : ℚ) (dur : Option ℚ) (now : ℚ) :
    ((st.ingress_limiter.allow now).1 = false →
      (handle_drive.driveAdmit st l r dur now).2.status_code = 429
      ∧ (handle_drive.driveAdmit st l r dur now).1.command_queue = st.command_queue)
    ∧ ((st.ingress_limiter.allow now).1 = true →
        ((st.command_queue.maxsize ≠ 0
            ∧ st.command_queue.maxsize ≤ (st.command_queue.queue.length : ℤ)) →
          (handle_drive.driveAdmit st l r dur now).2.status_code = 503
          ∧ (handle_drive.driveAdmit st l r dur now).1.command_queue = st.command_queue)
        ∧ (¬ (st.command_queue.maxsize ≠ 0
            ∧ st.command_queue.maxsize ≤ (st.command_queue.queue.length : ℤ)) →
          (handle_drive.driveAdmit st l r dur now).2.status_code = 202
          ∧ (handle_drive.driveAdmit st l r dur now).2.body
              = .queued ((st.command_queue.queue.length : ℤ) + 1)
          ∧ (handle_drive.driveAdmit st l r dur now).1.command_queue.queue
              = st.command_queue.queue
                ++ [("drive", { left_speed := l, right_speed := r, duration_s := dur })])) := by
  unfold handle_drive.driveAdmit
  rcases ha : st.ingress_limiter.allow now with ⟨g, lim'⟩
  cases g with
  | false =>
    refine ⟨fun _ => ?_, fun hg => by simp at hg⟩
    simp
  | true =>
    refine ⟨fun hg => by simp at hg, fun _ => ⟨fun hfull => ?_, fun hroom => ?_⟩⟩
    · simp only [CommandQueue.enqueue_drive, if_pos hfull]
      simp
    · simp only [CommandQueue.enqueue_drive, if_neg hroom]
      simp

/-- C7: for every `POST /drive/differential` request with a valid
payload, a failed non-blocking ingress admission check yields 429 with
the command queue left unchanged (nothing enqueued, depth untouched);
a granted token leads to enqueue and 202 carrying the resulting depth,
or to 503 when the queue reported full (again leaving the queue
unchanged). -/
theorem c7_drive_ingress_then_enqueue (st : AppState) (p : DrivePayload) (now : ℚ)
    (hv : p.valid) :
    ((st.ingress_limiter.allow now).1 = false →
      (handle_drive st p now).2.status_code = 429
      ∧ (handle_drive st p now).1.command_queue = st.command_queue)
    ∧ ((st.ingress_limiter.allow now).1 = true →
        ((st.command_queue.maxsize ≠ 0
            ∧ st.command_queue.maxsize ≤ (st.command_queue.queue.length : ℤ)) →
          (handle_drive st p now).2.status_code = 503
          ∧ (handle_drive st p now).1.command_queue = st.command_queue)
        ∧ (¬ (st.command_queue.maxsize ≠ 0
            ∧ st.command_queue.maxsize ≤ (st.command_queue.queue.length : ℤ)) →
          (handle_drive st p now).2.status_code = 202
          ∧ (handle_drive st p now).2.body
              = .queued ((st.command_queue.queue.length : ℤ) + 1)
          ∧ (handle_drive st p now).1.command_queue.queue
              = st.command_queue.queue
                ++ [("drive", { left_speed := p.left_speed.getD 0
                                right_speed := p.right_speed.getD 0
                                duration_s := p.duration_s })])) := by
  rcases p with ⟨opl, opr, opd⟩
  obtain ⟨hl, hr, hd⟩ := hv
  cases opl with
  | none => exact hl.elim
  | some l =>
    cases opr with
    | none => exact hr.elim
    | some r =>
      have hnl : ¬ (l < -1 ∨ 1 < l) := by
        push_neg
        exact ⟨hl.1, hl.2⟩
      have hnr : ¬ (r < -1 ∨ 1 < r) := by
        push_neg
        exact ⟨hr.1, hr.2⟩
      have hvl : validate_speed (some l) "left_speed" = .ok l := by
        simp only [validate_speed, if_neg hnl]
      have hvr : validate_speed (some r) "right_speed" = .ok r := by
        simp only [validate_speed, if_neg hnr]
      cases opd with
      | none =>
        simpa only [handle_drive, hvl, hvr, Option.getD_some] using
          driveAdmit_spec st l r none now
      | some d =>
        have hdpos : ¬ d ≤ 0 := not_le.mpr hd
        simpa only [handle_drive, hvl, hvr, if_neg hdpos, Option.getD_some] using
          driveAdmit_spec st l r (some d) now

/-- Witness for `c7_drive_ingress_then_enqueue`: the default app state
(full ingress bucket, empty queue) with a valid payload — the token is
granted and the command is enqueued at depth 1 with a 202. -/
theorem c7_drive_ingress_then_enqueue_witness :
    (handle_drive defaultAppState
        { left_speed := some (2/5), right_speed := some (-(1/5)), duration_s := some (1/2) }
        0).2.status_code = 202
    ∧ (handle_drive defaultAppState
        { left_speed := some (2/5), right_speed := some (-(1/5)), duration_s := some (1/2) }
        0).2.body = .queued 1 := by
  have hv : (({ left_speed := some (2/5), right_speed := some (-(1/5))
                duration_s := some (1/2) } : DrivePayload)).valid := by
    refine ⟨⟨by norm_num, by norm_num⟩, ⟨by norm_num, by norm_num⟩, by norm_num⟩
  have h := c7_drive_ingress_then_enqueue defaultAppState
    { left_speed := some (2/5), right_speed := some (-(1/5)), duration_s := some (1/2) }
    0 hv
  have hallow : (defaultAppState.ingress_limiter.allow 0).1 = true := by
    norm_num [defaultAppState, TokenBucket.init, TokenBucket.allow, TokenBucket.refill]
  have hroom : ¬ (defaultAppState.command_queue.maxsize ≠ 0
      ∧ defaultAppState.command_queue.maxsize
          ≤ (defaultAppState.command_queue.queue.length : ℤ)) := by
    norm_num [defaultAppState, CommandQueue.init]
  obtain ⟨h202, hbody, -⟩ := (h.2 hallow).2 hroom
  exact ⟨h202, by simpa [defaultAppState, CommandQueue.init] using hbody⟩

/-- `driveCalls` distributes over trace concatenation. -/
theorem driveCalls_append (l₁ l₂ : List MotorEvent) :
    driveCalls (l₁ ++ l₂) = driveCalls l₁ ++ driveCalls l₂ := by
  induction l₁ with
  | nil => rfl
  | cons e l ih => cases e <;> simp [driveCalls, ih]

/-- The drive invocations of a run of per-command execution blocks are
exactly the commands' speed pairs, in order. -/
theorem driveCalls_flatMap (cs : List DriveCommand) :
    driveCalls (cs.flatMap fun c => execEntry ("drive", c))
      = cs.map fun c => (c.left_speed, c.right_speed) := by
  induction cs with
  | nil => rfl
  | cons c cs ih =>
    rw [List.flatMap_cons, driveCalls_append, ih]
    cases hd : c.duration_s with
    | none => simp [execEntry, driveCalls, hd]
    | some d =>
      by_cases h0 : d = 0 <;> simp [execEntry, driveCalls, hd, h0]

/-- Any single step other than `clear` preserves the FIFO bookkeeping:
the trace is the concatenation of the executed commands' blocks, the
accepted commands are the executed ones followed by the still-queued
ones, and every queued entry is a "drive" entry. -/
theorem stepFn_preserves_fifo (s : SysState) (a : Act) (ha : a ≠ Act.clear)
    (h1 : s.trace = s.executed.flatMap fun c => execEntry ("drive", c))
    (h2 : s.arrivals = s.executed ++ s.cq.queue.map Prod.snd)
    (h3 : ∀ e ∈ s.cq.queue, e.1 = "drive") :
    ((stepFn s a).trace = (stepFn s a).executed.flatMap fun c => execEntry ("drive", c))
    ∧ (stepFn s a).arrivals = (stepFn s a).executed ++ (stepFn s a).cq.queue.map Prod.snd
    ∧ ∀ e ∈ (stepFn s a).cq.queue, e.1 = "drive" := by
  cases a with
  | enqueue c =>
    simp only [stepFn]
    cases hq : s.cq.enqueue_drive c with
    | error msg => exact ⟨h1, h2, h3⟩
    | ok p =>
      rcases p with ⟨d, q'⟩
      simp only [CommandQueue.enqueue_drive] at hq
      split at hq
      · exact absurd hq (by simp)
      · simp only [Except.ok.injEq, Prod.mk.injEq] at hq
        rw [← hq.2]
        refine ⟨h1, ?_, ?_⟩
        · simp [h2, List.append_assoc]
        · intro e he
          rcases List.mem_append.mp he with h | h
          · exact h3 e h
          · simp at h
            simp [h]
  | start => simp only [stepFn, CommandQueue.start]; split <;> exact ⟨h1, h2, h3⟩
  | stopSignal => exact ⟨h1, h2, h3⟩
  | stopJoin =>
    simp only [stepFn]
    split <;> exact ⟨h1, h2, h3⟩
  | clear => exact absurd rfl ha
  | workerPoll =>
    simp only [stepFn]
    split
    · rename_i halive
      split
      · split <;> exact ⟨h1, h2, h3⟩
      · rename_i e rest hq
        have he : e.1 = "drive" := h3 e (by simp [hq])
        have hpair : ("drive", e.2) = e := by
          rw [← he]
        refine ⟨?_, ?_, ?_⟩
        · simp only [h1, if_pos he]
          rw [List.flatMap_append]
          simp [hpair]
        · simp only [h2, hq, if_pos he]
          simp [List.append_assoc]
        · intro x hx
          exact h3 x (by simp [hq, hx])
    · exact ⟨h1, h2, h3⟩

/-- The FIFO bookkeeping holds along any run without `clear`. -/
theorem runActs_preserves_fifo (acts : List Act) :
    ∀ s : SysState, Act.clear ∉ acts →
    (s.trace = s.executed.flatMap fun c => execEntry ("drive", c)) →
    s.arrivals = s.executed ++ s.cq.queue.map Prod.snd →
    (∀ e ∈ s.cq.queue, e.1 = "drive") →
    ((runActs s acts).trace
        = (runActs s acts).executed.flatMap fun c => execEntry ("drive", c))
    ∧ (runActs s acts).arrivals
        = (runActs s acts).executed ++ (runActs s acts).cq.queue.map Prod.snd
    ∧ ∀ e ∈ (runActs s acts).cq.queue, e.1 = "drive" := by
  induction acts with
  | nil => intro s _ h1 h2 h3; exact ⟨h1, h2, h3⟩
  | cons a acts ih =>
    intro s hnc h1 h2 h3
    have ha : a ≠ Act.clear := by
      intro h
      exact hnc (by simp [h])
    obtain ⟨g1, g2, g3⟩ := stepFn_preserves_fifo s a ha h1 h2 h3
    exact ih (stepFn s a) (fun h => hnc (by simp [h])) g1 g2 g3

/-- C6: along every run of the system without `clear()`, the sequence of
`motor_controller.drive` invocations equals, in order, the executed
prefix of the accepted (submission-ordered) commands: the accepted
commands are exactly the executed ones followed by the still-queued
ones (conjunct 2), and the trace is the concatenation of the executed
commands' blocks (conjunct 3) — each block being the command's `drive`
call followed, for a duration-bound command, by its trailing `stop`, so
that stop completes before the next command's `drive` begins.  The
drive invocations therefore follow the enqueue order exactly
(conjunct 1). -/
theorem c6_fifo_execution_order (maxsize : ℤ) (acts : List Act) (hnc : Act.clear ∉ acts) :
    driveCalls (runActs (initSys maxsize) acts).trace
      = (runActs (initSys maxsize) acts).executed.map
          (fun c => (c.left_speed, c.right_speed))
    ∧ (runActs (initSys maxsize) acts).arrivals
      = (runActs (initSys maxsize) acts).executed
        ++ (runActs (initSys maxsize) acts).cq.queue.map Prod.snd
    ∧ (runActs (initSys maxsize) acts).trace
      = (runActs (initSys maxsize) acts).executed.flatMap
          fun c => execEntry ("drive", c) := by
  obtain ⟨h1, h2, h3⟩ := runActs_preserves_fifo acts (initSys maxsize) hnc rfl rfl
    (by intro e he; simp [initSys, CommandQueue.init] at he)
  exact ⟨by rw [h1, driveCalls_flatMap], h2, h1⟩

/-- Witness for `c6_fifo_execution_order`: two commands enqueued (the
first duration-bound), both executed by the worker. -/
theorem c6_fifo_execution_order_witness :
    Act.clear ∉ ([Act.start, Act.enqueue ⟨2/5, -(1/5), some (1/2)⟩,
        Act.enqueue ⟨1/5, 1/5, none⟩, Act.workerPoll, Act.workerPoll] : List Act)
    ∧ driveCalls (runActs (initSys 4)
        [Act.start, Act.enqueue ⟨2/5, -(1/5), some (1/2)⟩,
          Act.enqueue ⟨1/5, 1/5, none⟩, Act.workerPoll, Act.workerPoll]).trace
      = (runActs (initSys 4)
          [Act.start, Act.enqueue ⟨2/5, -(1/5), some (1/2)⟩,
            Act.enqueue ⟨1/5, 1/5, none⟩, Act.workerPoll, Act.workerPoll]).executed.map
          (fun c => (c.left_speed, c.right_speed)) := by
  have hnc : Act.clear ∉ ([Act.start, Act.enqueue ⟨2/5, -(1/5), some (1/2)⟩,
      Act.enqueue ⟨1/5, 1/5, none⟩, Act.workerPoll, Act.workerPoll] : List Act) := by
    simp
  exact ⟨hnc, (c6_fifo_execution_order 4 _ hnc).1⟩

/-- Refill at a time not earlier than the last update: parameters are
unchanged, the timestamp advances to `now`, the token count gains at
most `elapsed * rate` and stays non-negative. -/
theorem refill_spec (b : TokenBucket) (t : ℚ) (hle : b.updated_at ≤ t)
    (hrate : 0 < b.state.rate_per_second) (hcap : 0 < b.state.capacity)
    (htok : 0 ≤ b.tokens) :
    (b.refill t).state = b.state ∧ (b.refill t).updated_at = t
    ∧ (b.refill t).tokens ≤ b.tokens + (t - b.updated_at) * b.state.rate_per_second
    ∧ 0 ≤ (b.refill t).tokens := by
  have hcapQ : (0 : ℚ) < (b.state.capacity : ℚ) := by exact_mod_cast hcap
  have hmax : max 0 (t - b.updated_at) = t - b.updated_at := max_eq_right (by linarith)
  unfold TokenBucket.refill
  simp only [hmax]
  by_cases h0 : t - b.updated_at ≤ 0
  · have ht : t = b.updated_at := le_antisymm (by linarith) hle
    rw [if_pos h0]
    refine ⟨rfl, ht.symm, by nlinarith, htok⟩
  · rw [if_neg h0]
    refine ⟨rfl, rfl, min_le_right _ _, le_min hcapQ.le (by nlinarith)⟩

/-- One `allow()` step at a time not earlier than the last update:
parameters unchanged, timestamp advances to the call time, tokens stay
non-negative, and the consumption (1 on success, 0 on failure) plus the
remaining tokens is bounded by the previous tokens plus the refill. -/
theorem allow_step (b : TokenBucket) (t : ℚ) (hle : b.updated_at ≤ t)
    (hrate : 0 < b.state.rate_per_second) (hcap : 0 < b.state.capacity)
    (htok : 0 ≤ b.tokens) :
    (b.allow t).2.state = b.state ∧ (b.allow t).2.updated_at = t
    ∧ 0 ≤ (b.allow t).2.tokens
    ∧ (if (b.allow t).1 then (1 : ℚ) else 0) + (b.allow t).2.tokens
        ≤ b.tokens + (t - b.updated_at) * b.state.rate_per_second := by
  obtain ⟨f1, f2, f3, f4⟩ := refill_spec b t hle hrate hcap htok
  unfold TokenBucket.allow
  by_cases h1 : 1 ≤ (b.refill t).tokens
  · simp only [if_pos h1]
    exact ⟨f1, f2, by linarith, by simp; linarith⟩
  · simp only [if_neg h1]
    exact ⟨f1, f2, f4, by simp; linarith⟩

/-- Consumption bound for a run of `allow()` calls at nondecreasing
times: the number of granted tokens plus the final token count is
bounded by the initial count plus the refill accumulated between the
first and the last update, and the final timestamp is the last call
time (or unchanged for an empty run). -/
theorem allowRun_bound (times : List ℚ) :
    ∀ b : TokenBucket, List.Chain' (· ≤ ·) (b.updated_at :: times) →
    0 < b.state.rate_per_second → 0 < b.state.capacity → 0 ≤ b.tokens →
    (((b.allowRun times).1.count true : ℚ) + (b.allowRun times).2.tokens
      ≤ b.tokens + ((b.allowRun times).2.updated_at - b.updated_at) * b.state.rate_per_second)
    ∧ 0 ≤ (b.allowRun times).2.tokens
    ∧ b.updated_at ≤ (b.allowRun times).2.updated_at
    ∧ ((b.allowRun times).2.updated_at = b.updated_at ∨ (b.allowRun times).2.updated_at ∈ times)
    ∧ (b.allowRun times).2.state = b.state := by
  induction times with
  | nil =>
    intro b _ _ _ htok
    refine ⟨by simp [TokenBucket.allowRun], htok, le_refl _, Or.inl rfl, rfl⟩
  | cons t ts ih =>
    intro b hchain hrate hcap htok
    have hle : b.updated_at ≤ t := (List.chain'_cons.mp hchain).1
    have hchain' : List.Chain' (· ≤ ·) (t :: ts) := (List.chain'_cons.mp hchain).2
    obtain ⟨a1, a2, a3, a4⟩ := allow_step b t hle hrate hcap htok
    have hchain'' : List.Chain' (· ≤ ·) ((b.allow t).2.updated_at :: ts) := by
      rw [a2]; exact hchain'
    obtain ⟨g1, g2, g3, g4, g5⟩ := ih (b.allow t).2 hchain''
      (by rw [a1]; exact hrate) (by rw [a1]; exact hcap) a3
    have hcount : (((b.allowRun (t :: ts)).1.count true : ℚ))
        = (if (b.allow t).1 then (1 : ℚ) else 0)
          + (((b.allow t).2.allowRun ts).1.count true : ℚ) := by
      simp only [TokenBucket.allowRun]
      cases h : (b.allow t).1 <;> simp [h, List.count_cons, Nat.add_comm]
    have hfin : (b.allowRun (t :: ts)).2 = ((b.allow t).2.allowRun ts).2 := by
      simp [TokenBucket.allowRun]
    refine ⟨?_, by rw [hfin]; exact g2, ?_, ?_, by rw [hfin, g5, a1]⟩
    · rw [hcount, hfin]
      rw [a1] at g1
      rw [a2] at g1
      nlinarith [g1, a4]
    · rw [hfin]
      rw [a2] at g3
      exact le_trans hle g3
    · rw [hfin]
      rw [a2] at g4
      rcases g4 with h | h
      · exact Or.inr (by simp [h])
      · exact Or.inr (by simp [h])

/-- C4, amended: from a bucket of capacity `C` and rate `R` (both
positive) starting FULL at time `t0`, the number of successful
`allow()` / `wait_for_token()` consumptions over any nondecreasing
sequence of call times lying in the window `[t0, t0 + T]` is at most
`C + T·R` — the lazy refill can add up to `T·R` fresh tokens inside the
window, so the claimed bound of `C` for windows shorter than `C/R` does
not hold (see the counterexample); the burst `C` is exceeded by at most
the refill. -/
theorem c4_window_consumption_bound (R : ℚ) (C : ℤ) (t0 T : ℚ) (times : List ℚ)
    (hR : 0 < R) (hC : 0 < C) (hT : 0 ≤ T)
    (hchain : List.Chain' (· ≤ ·) (t0 :: times))
    (hub : ∀ t ∈ times, t ≤ t0 + T) :
    (((TokenBucket.init R C t0).allowRun times).1.count true : ℚ) ≤ (C : ℚ) + T * R := by
  obtain ⟨g1, g2, g3, g4, g5⟩ := allowRun_bound times (TokenBucket.init R C t0) hchain hR hC
    (by
      show (0 : ℚ) ≤ ((C : ℤ) : ℚ)
      exact_mod_cast hC.le)
  have ht0 : (TokenBucket.init R C t0).updated_at = t0 := rfl
  have hu : ((TokenBucket.init R C t0).allowRun times).2.updated_at - t0 ≤ T := by
    rcases g4 with h | h
    · rw [h, ht0]
      linarith
    · have := hub _ h
      linarith
  have htk : (TokenBucket.init R C t0).tokens = (C : ℚ) := rfl
  have hrr : (TokenBucket.init R C t0).state.rate_per_second = R := rfl
  rw [htk, ht0, hrr] at g1
  have hmul := mul_le_mul_of_nonneg_right hu hR.le
  linarith [g1, g2, hmul]

/-- Witness for `c4_window_consumption_bound`: the counterexample's own
numbers — `C = 2`, `R = 2`, three calls inside the window `[0, 1/2]` —
meet the amended bound with equality: 3 ≤ 2 + (1/2)·2. -/
theorem c4_window_consumption_bound_witness :
    (((TokenBucket.init 2 2 0).allowRun [0, 0, 1/2]).1.count true : ℚ)
      ≤ (2 : ℚ) + (1/2) * 2 :=
  c4_window_consumption_bound 2 2 0 (1/2) [0, 0, 1/2] (by norm_num) (by norm_num)
    (by norm_num)
    (by
      refine List.chain'_cons.mpr ⟨le_refl 0, ?_⟩
      refine List.chain'_cons.mpr ⟨le_refl 0, ?_⟩
      refine List.chain'_cons.mpr ⟨by norm_num, ?_⟩
      simp)
    (by
      intro t ht
      rcases List.mem_cons.mp ht with h | h
      · rw [h]; norm_num
      rcases List.mem_cons.mp h with h | h
      · rw [h]; norm_num
      · simp at h
        rw [h]; norm_num)
